import Mathlib

/-!
Verification of the SummerCamp25 scheduler.

This file shallowly embeds the scheduling core of the repository:

* `cmd/schedule/main.go` — the offline batch scheduler (namespace
  `CmdSchedule` below), and
* `pkg/optimizer/optimizer.go` — the web optimizer (namespace
  `Optimizer` below).

Both embodiments share the availability, age, plan-store and
two-phase seating logic; they differ only in the conflict predicate
`sessionsOverlap` (the optimizer treats an empty weekday set as
matching every weekday, the batch scheduler does not).  The shared
machinery is therefore defined once, parameterised by the overlap
predicate, and instantiated twice — mirroring the duplicated Go code.

Go `map` values are modelled as association lists with the zero-value
default of the corresponding Go type; Go `time.Time` values built by
`time.Unix(sec, 0)` are modelled by their second count (an `Int`),
since `Time.Before` on them is exactly `<` on seconds; Go `int` is
modelled as `Int` (no arithmetic here can overflow 64 bits).
-/

/-- Characters-level model of Go `strings.HasPrefix` on rune lists
(used only to build the substring test below). -/
def leadsChars : List Char → List Char → Bool
  | [], _ => true
  | _ :: _, [] => false
  | p :: ps, c :: cs => p == c && leadsChars ps cs

/-- Characters-level model of Go `strings.Contains`: `pat` occurs
somewhere in `hay`. -/
def hasSubChars (pat : List Char) : List Char → Bool
  | [] => pat.isEmpty
  | c :: cs => leadsChars pat (c :: cs) || hasSubChars pat cs

/-- Characters-level model of Go `strings.TrimSpace`. -/
def trimChars (cs : List Char) : List Char :=
  ((cs.dropWhile Char.isWhitespace).reverse.dropWhile Char.isWhitespace).reverse

/-- `strings.TrimSpace(strings.ToLower(s))`, the normalisation both
Go embodiments apply to the availability text. -/
def lowerTrim (s : String) : List Char :=
  trimChars (s.data.map Char.toLower)

/-- The session record used by the scheduling core.  Field names
follow `cmd/schedule/main.go`'s `Session`; the derived fields
`startDate`/`endDate` are kept as unix seconds and the clock fields as
minutes, exactly the values the Go conflict predicate consumes. -/
structure Session where
  activityName : String
  startDateUnix : Int
  endDateUnix : Int
  daysOfWeek : List String
  startClockMinutes : Int
  endClockMinutes : Int
  minimumAgeInclusive : Option Int
  maximumAgeExclusive : Option Int
  availabilityText : String
  pageURL : String
  interestedPriorities : List (String × String)
deriving DecidableEq, Repr

/-- `wantFileData` of both Go files: child ages (a Go map, defaulting
to 0) and the lexicographically sorted child-name list. -/
structure WantFileData where
  childAgesByName : List (String × Int)
  childNamesSorted : List String
deriving DecidableEq, Repr

/-- Go map lookup with the zero-value default. -/
def lookupWithDefault {β : Type} (pairs : List (String × β)) (key : String) (dflt : β) : β :=
  match pairs.find? (fun entry => entry.fst == key) with
  | some entry => entry.snd
  | none => dflt

/-- `priorityScoreByWord` of both Go files (map access with the
zero default for missing words). -/
def priorityScoreByWord (word : String) : Nat :=
  if word == "High" then 3
  else if word == "Medium" then 2
  else if word == "Low" then 1
  else 0

/-- `availabilityIsOpen` of both Go files: trim+lowercase, accept
`""`, `"available"`, `"starting soon"`, or any string containing both
`"space"` and `"left"`. -/
def availabilityIsOpen (availabilityText : String) : Bool :=
  let lower := lowerTrim availabilityText
  if lower == "".data || lower == "available".data || lower == "starting soon".data then
    true
  else
    hasSubChars "space".data lower && hasSubChars "left".data lower

/-- `ageIsWithinBounds` of both Go files: a missing minimum means 0, a
missing maximum means `1<<31 - 1`; the upper bound is exclusive. -/
def ageIsWithinBounds (age : Int) (minBound maxBound : Option Int) : Bool :=
  let minimum := minBound.getD 0
  let maximum := maxBound.getD (2 ^ 31 - 1)
  decide (minimum ≤ age ∧ age < maximum)

/-- `bufferMinutesBetweenSessions` of both Go files. -/
def bufferMinutesBetweenSessions : Int := 120

/-- The double loop both Go `sessionsOverlap` functions use to decide
whether the two weekday lists share an entry. -/
def daysIntersect (daysA daysB : List String) : Bool :=
  daysA.any (fun dayA => daysB.any (fun dayB => dayA == dayB))

namespace CmdSchedule

/-- `sessionsOverlap` of `cmd/schedule/main.go`: date ranges must
touch, the weekday lists must share an entry (an empty list shares
nothing), and the clock windows must be within the 120-minute
buffer. -/
def sessionsOverlap (a b : Session) : Bool :=
  if a.endDateUnix < b.startDateUnix ∨ b.endDateUnix < a.startDateUnix then false
  else if !(daysIntersect a.daysOfWeek b.daysOfWeek) then false
  else if a.endClockMinutes + bufferMinutesBetweenSessions ≤ b.startClockMinutes ∨
      b.endClockMinutes + bufferMinutesBetweenSessions ≤ a.startClockMinutes then false
  else true

end CmdSchedule

namespace Optimizer

/-- `sessionsOverlap` of `pkg/optimizer/optimizer.go`: as the batch
scheduler's predicate, except that an empty weekday list on either
side counts as sharing a day. -/
def sessionsOverlap (a b : Session) : Bool :=
  if a.endDateUnix < b.startDateUnix ∨ b.endDateUnix < a.startDateUnix then false
  else
    let shareDay :=
      a.daysOfWeek.isEmpty || b.daysOfWeek.isEmpty ||
        daysIntersect a.daysOfWeek b.daysOfWeek
    if !shareDay then false
    else if a.endClockMinutes + bufferMinutesBetweenSessions ≤ b.startClockMinutes ∨
        b.endClockMinutes + bufferMinutesBetweenSessions ≤ a.startClockMinutes then false
    else true

end Optimizer

/-- `childPlan` of both Go files: the scheduled sessions and the set
of enrolled activity names (the Go set is a map used only through
membership, so a list models it). -/
structure Plan where
  scheduledSessions : List Session
  enrolledActivitiesSet : List String
deriving DecidableEq, Repr

/-- The zero-value plan a fresh child slot starts with. -/
def emptyPlan : Plan := ⟨[], []⟩

/-- `childPlan.addSession` of both Go files: append the session and
record its activity name. -/
def Plan.addSession (plan : Plan) (s : Session) : Plan :=
  ⟨plan.scheduledSessions ++ [s], plan.enrolledActivitiesSet ++ [s.activityName]⟩

/-- `sessionFitsInPlan` / `sessionFits` of the two Go files,
parameterised by the overlap predicate of the embodiment: the activity
must not already be enrolled and no scheduled session may overlap the
candidate. -/
def Plan.sessionFits (plan : Plan) (ov : Session → Session → Bool) (candidate : Session) : Bool :=
  !(plan.enrolledActivitiesSet.contains candidate.activityName) &&
    plan.scheduledSessions.all (fun existing => !(ov existing candidate))

/-- `plansByChild`, the Go `map[string]*childPlan`, as an association
list keyed by the child names. -/
abbrev Plans : Type := List (String × Plan)

/-- The per-child plan map at the start of `buildOptimizedPlans`:
every child of the preference sheet gets an empty plan. -/
def initPlans (want : WantFileData) : Plans :=
  want.childNamesSorted.map (fun name => (name, emptyPlan))

/-- Go map read `plansByChild[child]` (zero value when absent). -/
def lookupPlan : Plans → String → Plan
  | [], _ => emptyPlan
  | entry :: rest, child => if entry.fst == child then entry.snd else lookupPlan rest child

/-- Mutation of the plan stored under a key (the Go code mutates the
plan through its pointer; here every entry holding the key is
rebuilt). -/
def updatePlan : Plans → String → (Plan → Plan) → Plans
  | [], _, _ => []
  | entry :: rest, child, f =>
      (if entry.fst == child then (entry.fst, f entry.snd) else entry) :: updatePlan rest child f

/-- Whether the plan map has an entry for the child. -/
def hasKey : Plans → String → Bool
  | [], _ => false
  | entry :: rest, child => entry.fst == child || hasKey rest child

/-- The joint-phase check `for _, plan := range plansByChild { if
!plan.sessionFits(...) }`: Go ranges over the map in a run-dependent
order, modelled by an explicit `visitOrder` over the keys. -/
def fitsAllOrd (ov : Session → Session → Bool) (visitOrder : List String)
    (plans : Plans) (s : Session) : Bool :=
  visitOrder.all (fun child => (lookupPlan plans child).sessionFits ov s)

/-- The joint-phase loop `for _, plan := range plansByChild {
plan.addSession(...) }`, again over an explicit key order. -/
def addToAllOrd (visitOrder : List String) (plans : Plans) (s : Session) : Plans :=
  visitOrder.foldl (fun ps child => updatePlan ps child (fun p => p.addSession s)) plans

/-- `scoredSession` of both Go files. -/
structure ScoredSession where
  sessionInstance : Session
  totalScore : Nat
deriving DecidableEq, Repr

/-- The per-child test inside both candidate loops: positive priority
word and age within bounds (`priorityScore == 0 || !ageIsWithinBounds`
skips the child). -/
def childAccepts (want : WantFileData) (s : Session) (child : String) : Bool :=
  !(priorityScoreByWord (lookupWithDefault s.interestedPriorities child "") == 0) &&
    ageIsWithinBounds (lookupWithDefault want.childAgesByName child 0)
      s.minimumAgeInclusive s.maximumAgeExclusive

/-- The total priority score the joint loop accumulates over all
children (only used when every child accepts). -/
def sessionTotalScore (want : WantFileData) (s : Session) : Nat :=
  (want.childNamesSorted.map
    (fun child => priorityScoreByWord (lookupWithDefault s.interestedPriorities child ""))).sum

/-- `candidateJointSessions` of both Go files: open sessions every
child is interested in and age-eligible for, in ingest order. -/
def jointCandidates (want : WantFileData) (allSessions : List Session) : List ScoredSession :=
  (allSessions.filter (fun s =>
      availabilityIsOpen s.availabilityText &&
        want.childNamesSorted.all (fun child => childAccepts want s child))).map
    (fun s => ⟨s, sessionTotalScore want s⟩)

/-- The joint-phase comparator handed to `sort.Slice`: higher score
first, then earlier start date.  It consults nothing else. -/
def jointLess (x y : ScoredSession) : Bool :=
  if x.totalScore ≠ y.totalScore then decide (x.totalScore > y.totalScore)
  else decide (x.sessionInstance.startDateUnix < y.sessionInstance.startDateUnix)

/-- `individualCandidate` of both Go files. -/
structure IndividualCandidate where
  sessionInstance : Session
  childName : String
  priorityScore : Nat
deriving DecidableEq, Repr

/-- `individualPool` of both Go files: per (open, not-already-joint)
session, one candidate per accepting child, session-major in ingest
order. -/
def individualPool (want : WantFileData) (allSessions : List Session)
    (jointActivities : List String) : List IndividualCandidate :=
  allSessions.flatMap (fun s =>
    if availabilityIsOpen s.availabilityText && !(jointActivities.contains s.activityName) then
      want.childNamesSorted.filterMap (fun child =>
        if childAccepts want s child then
          some ⟨s, child, priorityScoreByWord (lookupWithDefault s.interestedPriorities child "")⟩
        else none)
    else [])

/-- The individual-phase comparator handed to `sort.Slice`: higher
priority first, then earlier start date.  It consults nothing else. -/
def individualLess (x y : IndividualCandidate) : Bool :=
  if x.priorityScore ≠ y.priorityScore then decide (x.priorityScore > y.priorityScore)
  else decide (x.sessionInstance.startDateUnix < y.sessionInstance.startDateUnix)

/-- Insertion into a ranked list, the helper of `sortRanked`. -/
def insertRanked {α : Type} (less : α → α → Bool) (a : α) : List α → List α
  | [] => [a]
  | b :: bs => if less a b then a :: b :: bs else b :: insertRanked less a bs

/-- Model of Go's `sort.Slice`: some permutation of the input ordered
by the comparator.  `sort.Slice` promises exactly that (it is not
guaranteed to be stable); insertion sort is one such permutation and
keeps the model executable. -/
def sortRanked {α : Type} (less : α → α → Bool) : List α → List α
  | [] => []
  | a :: as => insertRanked less a (sortRanked less as)

/-- The postcondition Go documents for `sort.Slice`: the result is a
permutation of the input in which no later element is `less` than an
earlier one.  Ordering claims are settled against every list meeting
this contract, not just the permutation `sortRanked` picks. -/
def validSortResult {α : Type} (less : α → α → Bool) (input result : List α) : Prop :=
  input.Perm result ∧ result.Pairwise (fun x y => less y x = false)

/-- One iteration of the joint seating walk: seat the candidate into
every plan when it fits every plan, else skip it. -/
def seatJointStep (ov : Session → Session → Bool) (visitOrder : List String)
    (state : Plans × List Session) (candidate : ScoredSession) : Plans × List Session :=
  if fitsAllOrd ov visitOrder state.fst candidate.sessionInstance then
    (addToAllOrd visitOrder state.fst candidate.sessionInstance,
      state.snd ++ [candidate.sessionInstance])
  else state

/-- The joint seating walk over the sorted candidate list. -/
def seatJoint (ov : Session → Session → Bool) (visitOrder : List String)
    (plans : Plans) (cands : List ScoredSession) : Plans × List Session :=
  cands.foldl (seatJointStep ov visitOrder) (plans, [])

/-- One iteration of the individual seating walk: seat the candidate
into its child's plan when it fits there. -/
def seatIndividualStep (ov : Session → Session → Bool) (plans : Plans)
    (candidate : IndividualCandidate) : Plans :=
  if (lookupPlan plans candidate.childName).sessionFits ov candidate.sessionInstance then
    updatePlan plans candidate.childName (fun p => p.addSession candidate.sessionInstance)
  else plans

/-- The individual seating walk over the sorted pool. -/
def seatIndividual (ov : Session → Session → Bool) (plans : Plans)
    (cands : List IndividualCandidate) : Plans :=
  cands.foldl (seatIndividualStep ov) plans

/-- `buildOptimizedPlans` of both Go files, parameterised by the
overlap predicate and by the order in which the joint phase visits the
plan map (Go ranges over the map in a run-dependent order).  Returns
the per-child plans and the chosen joint sessions. -/
def buildPlansWithVisitOrder (ov : Session → Session → Bool) (visitOrder : List String)
    (allSessions : List Session) (want : WantFileData) : Plans × List Session :=
  let sortedJoint := sortRanked jointLess (jointCandidates want allSessions)
  let seated := seatJoint ov visitOrder (initPlans want) sortedJoint
  let jointActivities := seated.snd.map (fun s => s.activityName)
  let pool := sortRanked individualLess (individualPool want allSessions jointActivities)
  (seatIndividual ov seated.fst pool, seated.snd)

/-- `buildOptimizedPlans` of `cmd/schedule/main.go` (its map keys are
exactly `want.childNamesSorted`). -/
def CmdSchedule.buildOptimizedPlans (allSessions : List Session) (want : WantFileData) :
    Plans × List Session :=
  buildPlansWithVisitOrder CmdSchedule.sessionsOverlap want.childNamesSorted allSessions want

/-- `buildOptimizedPlans` of `pkg/optimizer/optimizer.go`. -/
def Optimizer.buildOptimizedPlans (allSessions : List Session) (want : WantFileData) :
    Plans × List Session :=
  buildPlansWithVisitOrder Optimizer.sessionsOverlap want.childNamesSorted allSessions want

/-- Modelled from the spec: the conflict predicate of §4.3, with both
of its special cases — an empty weekday set on either side counts as
overlapping, and an unspecified clock window (both ends zero) on
either side counts as overlapping.  Used to compare the spec's
predicate with the implemented ones. -/
def specConflict (a b : Session) : Bool :=
  decide (b.startDateUnix ≤ a.endDateUnix ∧ a.startDateUnix ≤ b.endDateUnix) &&
    (a.daysOfWeek.isEmpty || b.daysOfWeek.isEmpty ||
      daysIntersect a.daysOfWeek b.daysOfWeek) &&
    ((decide (a.startClockMinutes = 0) && decide (a.endClockMinutes = 0)) ||
      (decide (b.startClockMinutes = 0) && decide (b.endClockMinutes = 0)) ||
      !(decide (a.endClockMinutes + bufferMinutesBetweenSessions ≤ b.startClockMinutes ∨
          b.endClockMinutes + bufferMinutesBetweenSessions ≤ a.startClockMinutes)))

/-- Modelled from the spec: §4.2's age rule, `eligible ⇔ childAge ≥
effectiveMin ∧ childAge < effectiveMax` with a missing minimum meaning
0 and a missing maximum meaning unbounded. -/
def specAgeEligible (age : Int) (minBound maxBound : Option Int) : Prop :=
  minBound.getD 0 ≤ age ∧
    match maxBound with
    | some m => age < m
    | none => True

/-- Modelled from the spec: §4.2's open-for-enrolment rule — the
trimmed, lowercased availability string is `""`, `"available"` or
`"starting soon"`, or contains both `"space"` and `"left"`. -/
def specAvailabilityOpen (s : String) : Prop :=
  lowerTrim s = "".data ∨ lowerTrim s = "available".data ∨
    lowerTrim s = "starting soon".data ∨
    (hasSubChars "space".data (lowerTrim s) = true ∧
      hasSubChars "left".data (lowerTrim s) = true)

/-- The order the joint comparator actually enforces between an
earlier and a later processed candidate: strictly higher score, or
equal score and a no-later start date. -/
def jointRankOrder (x y : ScoredSession) : Prop :=
  x.totalScore > y.totalScore ∨
    (x.totalScore = y.totalScore ∧
      x.sessionInstance.startDateUnix ≤ y.sessionInstance.startDateUnix)

/-- The order the individual comparator actually enforces. -/
def individualRankOrder (x y : IndividualCandidate) : Prop :=
  x.priorityScore > y.priorityScore ∨
    (x.priorityScore = y.priorityScore ∧
      x.sessionInstance.startDateUnix ≤ y.sessionInstance.startDateUnix)

/-- Per-child plans are pairwise conflict-free under the given overlap
predicate. -/
def PlansNoConflict (ov : Session → Session → Bool) (ps : Plans) : Prop :=
  ∀ c : String,
    ((lookupPlan ps c).scheduledSessions).Pairwise (fun a b => ov a b = false)

/-- The empty preference sheet: no children. -/
def emptyWantFileData : WantFileData := ⟨[], []⟩

/-- A one-child preference sheet used by the concrete runs below. -/
def want1 : WantFileData := ⟨[("Kid", 8)], ["Kid"]⟩

/-- A two-child preference sheet used by the concrete runs below. -/
def want2 : WantFileData := ⟨[("Ann", 9), ("Ben", 7)], ["Ann", "Ben"]⟩

/-- A session with an unspecified clock window (both ends zero). -/
def sessionZeroClock : Session :=
  { activityName := "Pottery", startDateUnix := 0, endDateUnix := 345600,
    daysOfWeek := ["Mon"], startClockMinutes := 0, endClockMinutes := 0,
    minimumAgeInclusive := none, maximumAgeExclusive := none,
    availabilityText := "", pageURL := "",
    interestedPriorities := [("Kid", "High")] }

/-- A morning session on the same days and dates as
`sessionZeroClock`. -/
def sessionMorning : Session :=
  { activityName := "Robotics", startDateUnix := 0, endDateUnix := 345600,
    daysOfWeek := ["Mon"], startClockMinutes := 480, endClockMinutes := 540,
    minimumAgeInclusive := none, maximumAgeExclusive := none,
    availabilityText := "", pageURL := "",
    interestedPriorities := [("Kid", "High")] }

/-- A session with an empty (unspecified) weekday list. -/
def sessionNoDays : Session :=
  { activityName := "Drama", startDateUnix := 0, endDateUnix := 432000,
    daysOfWeek := [], startClockMinutes := 540, endClockMinutes := 720,
    minimumAgeInclusive := none, maximumAgeExclusive := none,
    availabilityText := "available", pageURL := "",
    interestedPriorities := [] }

/-- A Monday–Friday-style session on the same dates and clock as
`sessionNoDays`. -/
def sessionWeekdays : Session :=
  { activityName := "Chess", startDateUnix := 0, endDateUnix := 432000,
    daysOfWeek := ["Mon"], startClockMinutes := 540, endClockMinutes := 720,
    minimumAgeInclusive := none, maximumAgeExclusive := none,
    availabilityText := "available", pageURL := "",
    interestedPriorities := [] }

/-- A second empty-weekday session for the cross-embodiment
comparison. -/
def sessionNoDaysLate : Session :=
  { activityName := "Sailing", startDateUnix := 100, endDateUnix := 200,
    daysOfWeek := [], startClockMinutes := 600, endClockMinutes := 660,
    minimumAgeInclusive := none, maximumAgeExclusive := none,
    availabilityText := "", pageURL := "",
    interestedPriorities := [] }

/-- A Tuesday session on the same dates and clock as
`sessionNoDaysLate`. -/
def sessionTuesday : Session :=
  { activityName := "Archery", startDateUnix := 100, endDateUnix := 200,
    daysOfWeek := ["Tue"], startClockMinutes := 600, endClockMinutes := 660,
    minimumAgeInclusive := none, maximumAgeExclusive := none,
    availabilityText := "", pageURL := "",
    interestedPriorities := [] }

/-- A session shared by both children of `want2`. -/
def sessionShared : Session :=
  { activityName := "Swimming", startDateUnix := 0, endDateUnix := 345600,
    daysOfWeek := ["Wed"], startClockMinutes := 600, endClockMinutes := 720,
    minimumAgeInclusive := none, maximumAgeExclusive := none,
    availabilityText := "available", pageURL := "",
    interestedPriorities := [("Ann", "High"), ("Ben", "Medium")] }

/-- First of two joint candidates tying on score and start date; its
ingest position is 0. -/
def jointCandTie0 : ScoredSession :=
  ⟨{ activityName := "TieFirst", startDateUnix := 100, endDateUnix := 200,
     daysOfWeek := ["Mon"], startClockMinutes := 540, endClockMinutes := 600,
     minimumAgeInclusive := none, maximumAgeExclusive := none,
     availabilityText := "", pageURL := "", interestedPriorities := [] }, 3⟩

/-- Second of the two tying joint candidates; its ingest position
is 1. -/
def jointCandTie1 : ScoredSession :=
  ⟨{ activityName := "TieSecond", startDateUnix := 100, endDateUnix := 200,
     daysOfWeek := ["Mon"], startClockMinutes := 540, endClockMinutes := 600,
     minimumAgeInclusive := none, maximumAgeExclusive := none,
     availabilityText := "", pageURL := "", interestedPriorities := [] }, 3⟩

/-- Unfolding lemma: visiting one more child first updates that
child's plan. -/
theorem addToAllOrd_cons (d : String) (rest : List String) (ps : Plans) (x : Session) :
    addToAllOrd (d :: rest) ps x =
      addToAllOrd rest (updatePlan ps d (fun p => p.addSession x)) x := rfl

/-- A child absent from the plan map reads as the empty plan. -/
theorem lookupPlan_of_not_hasKey (ps : Plans) (c : String) (h : hasKey ps c = false) :
    lookupPlan ps c = emptyPlan := by
  induction ps with
  | nil => rfl
  | cons entry rest ih =>
      simp only [hasKey, Bool.or_eq_false_iff] at h
      simp only [lookupPlan, h.1, if_false, Bool.false_eq_true]
      exact ih h.2

/-- `updatePlan` never changes the key set. -/
theorem hasKey_updatePlan (ps : Plans) (c' : String) (f : Plan → Plan) (c : String) :
    hasKey (updatePlan ps c' f) c = hasKey ps c := by
  induction ps with
  | nil => rfl
  | cons entry rest ih =>
      by_cases he : entry.fst == c' <;> simp [updatePlan, hasKey, he, ih]

/-- Updating one key leaves lookups of other keys unchanged. -/
theorem lookupPlan_updatePlan_ne (ps : Plans) (c' : String) (f : Plan → Plan) (c : String)
    (h : c' ≠ c) : lookupPlan (updatePlan ps c' f) c = lookupPlan ps c := by
  have hcc : ¬(c = c') := fun hh => h hh.symm
  induction ps with
  | nil => rfl
  | cons entry rest ih =>
      by_cases he : entry.fst = c'
      · simp [updatePlan, lookupPlan, he, h, hcc, ih]
      · by_cases hc : entry.fst = c <;> simp [updatePlan, lookupPlan, he, hc, hcc, ih]

/-- Reading back the updated key applies the update exactly when the
key is present. -/
theorem lookupPlan_updatePlan_self (ps : Plans) (c : String) (f : Plan → Plan) :
    lookupPlan (updatePlan ps c f) c =
      if hasKey ps c then f (lookupPlan ps c) else emptyPlan := by
  induction ps with
  | nil => rfl
  | cons entry rest ih =>
      by_cases he : entry.fst = c
      · simp [updatePlan, lookupPlan, hasKey, he]
      · simp [updatePlan, lookupPlan, hasKey, he, ih]

/-- Appending a session through `updatePlan` preserves membership of
previously scheduled sessions under every key. -/
theorem mem_lookupPlan_updatePlan (ps : Plans) (c' c : String) (x s : Session)
    (h : s ∈ (lookupPlan ps c).scheduledSessions) :
    s ∈ (lookupPlan (updatePlan ps c' (fun p => p.addSession x)) c).scheduledSessions := by
  by_cases hcc : c' = c
  · subst hcc
    rw [lookupPlan_updatePlan_self]
    by_cases hk : hasKey ps c'
    · simp only [hk, if_true, Plan.addSession]
      exact List.mem_append_left _ h
    · rw [lookupPlan_of_not_hasKey ps c' (by simp [hk])] at h
      simp [emptyPlan] at h
  · rw [lookupPlan_updatePlan_ne ps c' _ c hcc]
    exact h

/-- `addToAllOrd` preserves membership of previously scheduled
sessions under every key. -/
theorem mem_lookupPlan_addToAllOrd (visitOrder : List String) (x s : Session) (c : String) :
    ∀ ps : Plans, s ∈ (lookupPlan ps c).scheduledSessions →
      s ∈ (lookupPlan (addToAllOrd visitOrder ps x) c).scheduledSessions := by
  induction visitOrder with
  | nil => exact fun ps h => h
  | cons d rest ih =>
      intro ps h
      rw [addToAllOrd_cons]
      exact ih _ (mem_lookupPlan_updatePlan ps d c x s h)

/-- `addToAllOrd` never changes the key set. -/
theorem hasKey_addToAllOrd (visitOrder : List String) (x : Session) (c : String) :
    ∀ ps : Plans, hasKey (addToAllOrd visitOrder ps x) c = hasKey ps c := by
  induction visitOrder with
  | nil => exact fun ps => rfl
  | cons d rest ih =>
      intro ps
      rw [addToAllOrd_cons, ih, hasKey_updatePlan]

/-- A session added to every visited plan is scheduled for every
visited child whose plan exists. -/
theorem mem_lookupPlan_addToAllOrd_self (visitOrder : List String) (x : Session) (c : String) :
    ∀ ps : Plans, c ∈ visitOrder → hasKey ps c = true →
      x ∈ (lookupPlan (addToAllOrd visitOrder ps x) c).scheduledSessions := by
  induction visitOrder with
  | nil => intro ps hc _; cases hc
  | cons d rest ih =>
      intro ps hc hk
      rw [addToAllOrd_cons]
      rcases List.mem_cons.mp hc with hcd | hcr
      · subst hcd
        have hmem :
            x ∈ (lookupPlan (updatePlan ps c (fun p => p.addSession x)) c).scheduledSessions := by
          rw [lookupPlan_updatePlan_self, hk]
          simp [Plan.addSession]
        exact mem_lookupPlan_addToAllOrd rest x x c _ hmem
      · exact ih _ hcr (by rw [hasKey_updatePlan]; exact hk)

/-- Every name of a list has a key in the map assigning each name the
empty plan. -/
theorem hasKey_namedEmptyPlans (names : List String) (c : String) (hc : c ∈ names) :
    hasKey (names.map (fun name => (name, emptyPlan))) c = true := by
  induction names with
  | nil => cases hc
  | cons d rest ih =>
      rcases List.mem_cons.mp hc with hcd | hcr
      · subst hcd; simp [hasKey]
      · simp [hasKey, ih hcr]

/-- Every child of the sheet has an entry in the initial plan map. -/
theorem hasKey_initPlans (want : WantFileData) (c : String)
    (hc : c ∈ want.childNamesSorted) : hasKey (initPlans want) c = true :=
  hasKey_namedEmptyPlans want.childNamesSorted c hc

/-- Looking anything up in a map of empty plans gives the empty plan. -/
theorem lookupPlan_namedEmptyPlans (names : List String) (c : String) :
    lookupPlan (names.map (fun name => (name, emptyPlan))) c = emptyPlan := by
  induction names with
  | nil => rfl
  | cons d rest ih =>
      by_cases hd : d = c <;> simp [lookupPlan, hd, ih]

/-- Every lookup in the initial plan map is the empty plan. -/
theorem lookupPlan_initPlans (want : WantFileData) (c : String) :
    lookupPlan (initPlans want) c = emptyPlan :=
  lookupPlan_namedEmptyPlans want.childNamesSorted c

/-- Ranked insertion produces a permutation of consing. -/
theorem insertRanked_perm {α : Type} (less : α → α → Bool) (a : α) (l : List α) :
    (insertRanked less a l).Perm (a :: l) := by
  induction l with
  | nil => exact List.Perm.refl _
  | cons b bs ih =>
      simp only [insertRanked]
      by_cases hb : less a b
      · simp [hb]
      · simp only [hb, if_false, Bool.false_eq_true]
        exact (ih.cons b).trans (List.Perm.swap a b bs)

/-- The modelled `sort.Slice` outcome is a permutation of its input. -/
theorem sortRanked_perm {α : Type} (less : α → α → Bool) (l : List α) :
    (sortRanked less l).Perm l := by
  induction l with
  | nil => exact List.Perm.refl _
  | cons a as ih =>
      exact (insertRanked_perm less a (sortRanked less as)).trans (ih.cons a)

/-- Membership is preserved by the modelled sort. -/
theorem mem_sortRanked {α : Type} (less : α → α → Bool) (l : List α) (x : α) :
    x ∈ sortRanked less l ↔ x ∈ l :=
  (sortRanked_perm less l).mem_iff

/-- Two pointwise-equal step functions fold identically. -/
theorem foldl_congr_fun {α β : Type} (f g : β → α → β) (h : ∀ b a, f b a = g b a) :
    ∀ (l : List α) (b : β), List.foldl f b l = List.foldl g b l := by
  intro l
  induction l with
  | nil => intro b; rfl
  | cons a as ih =>
      intro b
      simp only [List.foldl, h b a, ih]

/-- `List.all` only depends on the multiset of elements. -/
theorem all_eq_of_perm {α : Type} (f : α → Bool) {l₁ l₂ : List α} (h : l₁.Perm l₂) :
    l₁.all f = l₂.all f := by
  have hiff : (l₁.all f = true) ↔ (l₂.all f = true) := by
    simp only [List.all_eq_true]
    exact ⟨fun hh x hx => hh x (h.mem_iff.mpr hx), fun hh x hx => hh x (h.mem_iff.mp hx)⟩
  cases h1 : l₁.all f <;> cases h2 : l₂.all f <;> simp_all

/-- One joint step keeps every already-seated joint session inside
every visited child's plan, keeps the keys, and only appends to the
joint list. -/
theorem seatJointStep_spec (ov : Session → Session → Bool) (visitOrder : List String)
    (st : Plans × List Session) (cand : ScoredSession) :
    (seatJointStep ov visitOrder st cand = st ∨
      seatJointStep ov visitOrder st cand =
        (addToAllOrd visitOrder st.fst cand.sessionInstance,
          st.snd ++ [cand.sessionInstance])) := by
  unfold seatJointStep
  by_cases h : fitsAllOrd ov visitOrder st.fst cand.sessionInstance <;> simp [h]

/-- Joint seating: every session of the produced joint list is in the
plan of every visited child, provided every visited child has a plan
entry. -/
theorem seatJoint_mem (ov : Session → Session → Bool) (visitOrder : List String)
    (cands : List ScoredSession) :
    ∀ st : Plans × List Session,
      (∀ c ∈ visitOrder, hasKey st.fst c = true) →
      (∀ s ∈ st.snd, ∀ c ∈ visitOrder, s ∈ (lookupPlan st.fst c).scheduledSessions) →
      (∀ c ∈ visitOrder, hasKey (cands.foldl (seatJointStep ov visitOrder) st).fst c = true) ∧
      (∀ s ∈ (cands.foldl (seatJointStep ov visitOrder) st).snd, ∀ c ∈ visitOrder,
        s ∈ (lookupPlan (cands.foldl (seatJointStep ov visitOrder) st).fst c).scheduledSessions) := by
  induction cands with
  | nil => exact fun st hkeys hmem => ⟨hkeys, hmem⟩
  | cons cand rest ih =>
      intro st hkeys hmem
      simp only [List.foldl]
      rcases seatJointStep_spec ov visitOrder st cand with hstep | hstep
      · rw [hstep]
        exact ih st hkeys hmem
      · rw [hstep]
        refine ih _ ?_ ?_
        · intro c hc
          rw [hasKey_addToAllOrd]
          exact hkeys c hc
        · intro s hs c hc
          rcases List.mem_append.mp hs with hold | hnew
          · exact mem_lookupPlan_addToAllOrd visitOrder _ s c st.fst (hmem s hold c hc)
          · have hxs : s = cand.sessionInstance := by simpa using hnew
            subst hxs
            exact mem_lookupPlan_addToAllOrd_self visitOrder cand.sessionInstance c st.fst hc
              (hkeys c hc)

/-- One individual step preserves membership of scheduled sessions
under every key. -/
theorem mem_seatIndividualStep (ov : Session → Session → Bool) (ps : Plans)
    (cand : IndividualCandidate) (c : String) (s : Session)
    (h : s ∈ (lookupPlan ps c).scheduledSessions) :
    s ∈ (lookupPlan (seatIndividualStep ov ps cand) c).scheduledSessions := by
  unfold seatIndividualStep
  by_cases hf : (lookupPlan ps cand.childName).sessionFits ov cand.sessionInstance
  · simp only [hf, if_true]
    exact mem_lookupPlan_updatePlan ps cand.childName c cand.sessionInstance s h
  · simp only [hf, if_false, Bool.false_eq_true]
    exact h

/-- The individual phase preserves membership of scheduled sessions
under every key. -/
theorem mem_seatIndividual (ov : Session → Session → Bool) (cands : List IndividualCandidate)
    (c : String) (s : Session) :
    ∀ ps : Plans, s ∈ (lookupPlan ps c).scheduledSessions →
      s ∈ (lookupPlan (seatIndividual ov ps cands) c).scheduledSessions := by
  induction cands with
  | nil => exact fun ps h => h
  | cons cand rest ih =>
      intro ps h
      exact ih _ (mem_seatIndividualStep ov ps cand c s h)

/-- With a duplicate-free visit order, `addToAllOrd` appends the
session once to each visited existing plan and touches nothing else. -/
theorem lookupPlan_addToAllOrd_of_nodup (x : Session) (c : String) :
    ∀ (visitOrder : List String) (ps : Plans), visitOrder.Nodup →
      lookupPlan (addToAllOrd visitOrder ps x) c =
        if c ∈ visitOrder then
          (if hasKey ps c then (lookupPlan ps c).addSession x else emptyPlan)
        else lookupPlan ps c := by
  intro visitOrder
  induction visitOrder with
  | nil => intro ps _; simp [addToAllOrd]
  | cons d rest ih =>
      intro ps hnd
      have hdrest : d ∉ rest := (List.nodup_cons.mp hnd).1
      have hrest : rest.Nodup := (List.nodup_cons.mp hnd).2
      rw [addToAllOrd_cons, ih _ hrest]
      by_cases hcd : c = d
      · subst hcd
        rw [lookupPlan_updatePlan_self]
        simp [hdrest]
      · rw [lookupPlan_updatePlan_ne ps d _ c (fun hh => hcd hh.symm), hasKey_updatePlan]
        by_cases hcr : c ∈ rest <;> simp [List.mem_cons, hcd, hcr]

/-- A fitting candidate extends a pairwise conflict-free session list
to a pairwise conflict-free session list. -/
theorem pairwise_addSession (ov : Session → Session → Bool) (plan : Plan) (x : Session)
    (hpw : plan.scheduledSessions.Pairwise (fun a b => ov a b = false))
    (hfit : plan.sessionFits ov x = true) :
    (plan.addSession x).scheduledSessions.Pairwise (fun a b => ov a b = false) := by
  have hall : ∀ e ∈ plan.scheduledSessions, ov e x = false := by
    intro e he
    have h2 := hfit
    simp only [Plan.sessionFits, Bool.and_eq_true] at h2
    have := List.all_eq_true.mp h2.2 e he
    simpa using this
  simp only [Plan.addSession]
  refine List.pairwise_append.mpr ⟨hpw, List.pairwise_singleton _ _, ?_⟩
  intro e he y hy
  have hyx : y = x := by simpa using hy
  subst hyx
  exact hall e he

/-- One joint step preserves per-child pairwise conflict-freedom when
the visit order is duplicate-free. -/
theorem pairwise_seatJointStep (ov : Session → Session → Bool) (visitOrder : List String)
    (hnd : visitOrder.Nodup) (st : Plans × List Session) (cand : ScoredSession)
    (h : PlansNoConflict ov st.fst) :
    PlansNoConflict ov (seatJointStep ov visitOrder st cand).fst := by
  unfold seatJointStep
  by_cases hf : fitsAllOrd ov visitOrder st.fst cand.sessionInstance
  · simp only [hf, if_true]
    intro c
    rw [lookupPlan_addToAllOrd_of_nodup cand.sessionInstance c visitOrder st.fst hnd]
    by_cases hc : c ∈ visitOrder
    · simp only [hc, if_true]
      by_cases hk : hasKey st.fst c
      · simp only [hk, if_true]
        have hfit : (lookupPlan st.fst c).sessionFits ov cand.sessionInstance = true :=
          List.all_eq_true.mp hf c hc
        exact pairwise_addSession ov _ _ (h c) hfit
      · simp [hk, emptyPlan]
    · simp only [hc, if_false]
      exact h c
  · simp only [hf, if_false, Bool.false_eq_true]
    exact h

/-- The joint phase preserves per-child pairwise conflict-freedom. -/
theorem pairwise_seatJoint (ov : Session → Session → Bool) (visitOrder : List String)
    (hnd : visitOrder.Nodup) (cands : List ScoredSession) :
    ∀ st : Plans × List Session, PlansNoConflict ov st.fst →
      PlansNoConflict ov (cands.foldl (seatJointStep ov visitOrder) st).fst := by
  induction cands with
  | nil => exact fun st h => h
  | cons cand rest ih =>
      intro st h
      exact ih _ (pairwise_seatJointStep ov visitOrder hnd st cand h)

/-- One individual step preserves per-child pairwise
conflict-freedom. -/
theorem pairwise_seatIndividualStep (ov : Session → Session → Bool) (ps : Plans)
    (cand : IndividualCandidate) (h : PlansNoConflict ov ps) :
    PlansNoConflict ov (seatIndividualStep ov ps cand) := by
  unfold seatIndividualStep
  by_cases hf : (lookupPlan ps cand.childName).sessionFits ov cand.sessionInstance
  · simp only [hf, if_true]
    intro c
    by_cases hcc : cand.childName = c
    · subst hcc
      rw [lookupPlan_updatePlan_self]
      by_cases hk : hasKey ps cand.childName
      · simp only [hk, if_true]
        exact pairwise_addSession ov _ _ (h cand.childName) hf
      · simp [hk, emptyPlan]
    · rw [lookupPlan_updatePlan_ne ps cand.childName _ c hcc]
      exact h c
  · simp only [hf, if_false, Bool.false_eq_true]
    exact h

/-- The individual phase preserves per-child pairwise
conflict-freedom. -/
theorem pairwise_seatIndividual (ov : Session → Session → Bool)
    (cands : List IndividualCandidate) :
    ∀ ps : Plans, PlansNoConflict ov ps → PlansNoConflict ov (seatIndividual ov ps cands) := by
  induction cands with
  | nil => exact fun ps h => h
  | cons cand rest ih =>
      intro ps h
      exact ih _ (pairwise_seatIndividualStep ov ps cand h)

/-- The initial plan map is trivially conflict-free. -/
theorem plansNoConflict_initPlans (ov : Session → Session → Bool) (want : WantFileData) :
    PlansNoConflict ov (initPlans want) := by
  intro c
  rw [lookupPlan_initPlans]
  simp [emptyPlan]

/-- The full pipeline yields per-child pairwise conflict-free plans
under the overlap predicate it runs with, for any duplicate-free
child-name list. -/
theorem plansNoConflict_buildPlans (ov : Session → Session → Bool)
    (allSessions : List Session) (want : WantFileData)
    (hnd : want.childNamesSorted.Nodup) :
    PlansNoConflict ov (buildPlansWithVisitOrder ov want.childNamesSorted allSessions want).fst := by
  unfold buildPlansWithVisitOrder
  exact pairwise_seatIndividual ov _ _
    (pairwise_seatJoint ov want.childNamesSorted hnd _ _ (plansNoConflict_initPlans ov want))

/-- Two updates with the same plan transformer commute (distinct keys
touch distinct entries; equal keys make both sides identical). -/
theorem updatePlan_comm (f : Plan → Plan) :
    ∀ (ps : Plans) (c₁ c₂ : String),
      updatePlan (updatePlan ps c₁ f) c₂ f = updatePlan (updatePlan ps c₂ f) c₁ f := by
  intro ps
  induction ps with
  | nil => intro c₁ c₂; rfl
  | cons entry rest ih =>
      intro c₁ c₂
      by_cases h₁ : entry.fst = c₁ <;> by_cases h₂ : entry.fst = c₂ <;>
        by_cases h₁₂ : c₁ = c₂ <;>
        simp_all [updatePlan]

/-- The add-to-every-plan loop does not depend on the order in which
the plan map is visited. -/
theorem addToAllOrd_eq_of_perm (x : Session) {σ₁ σ₂ : List String} (hp : σ₁.Perm σ₂)
    (ps : Plans) : addToAllOrd σ₁ ps x = addToAllOrd σ₂ ps x := by
  unfold addToAllOrd
  haveI : RightCommutative (fun ps child => updatePlan ps child (fun p => p.addSession x)) :=
    ⟨fun b a₁ a₂ => updatePlan_comm (fun p => p.addSession x) b a₁ a₂⟩
  exact hp.foldl_eq ps

/-- The fits-in-every-plan check does not depend on the order in which
the plan map is visited. -/
theorem fitsAllOrd_eq_of_perm (ov : Session → Session → Bool) {σ₁ σ₂ : List String}
    (hp : σ₁.Perm σ₂) (ps : Plans) (s : Session) :
    fitsAllOrd ov σ₁ ps s = fitsAllOrd ov σ₂ ps s := by
  unfold fitsAllOrd
  exact all_eq_of_perm _ hp

/-- One joint step is unchanged by permuting the visit order. -/
theorem seatJointStep_eq_of_perm (ov : Session → Session → Bool) {σ₁ σ₂ : List String}
    (hp : σ₁.Perm σ₂) (st : Plans × List Session) (cand : ScoredSession) :
    seatJointStep ov σ₁ st cand = seatJointStep ov σ₂ st cand := by
  unfold seatJointStep
  rw [fitsAllOrd_eq_of_perm ov hp, addToAllOrd_eq_of_perm _ hp]

/-- The whole pipeline is unchanged by permuting the plan-map visit
order — the only run-to-run varying ingredient Go's randomised map
iteration introduces. -/
theorem buildPlans_eq_of_perm (ov : Session → Session → Bool) {σ₁ σ₂ : List String}
    (hp : σ₁.Perm σ₂) (allSessions : List Session) (want : WantFileData) :
    buildPlansWithVisitOrder ov σ₁ allSessions want =
      buildPlansWithVisitOrder ov σ₂ allSessions want := by
  have h : List.foldl (seatJointStep ov σ₁) ((initPlans want, []) : Plans × List Session)
      (sortRanked jointLess (jointCandidates want allSessions)) =
      List.foldl (seatJointStep ov σ₂) ((initPlans want, []) : Plans × List Session)
      (sortRanked jointLess (jointCandidates want allSessions)) :=
    foldl_congr_fun _ _ (fun st cand => seatJointStep_eq_of_perm ov hp st cand) _ _
  simp only [buildPlansWithVisitOrder, seatJoint, h]

/-- With no plans to visit, the joint walk seats every candidate. -/
theorem seatJoint_nil_visitOrder (ov : Session → Session → Bool)
    (cands : List ScoredSession) :
    ∀ st : Plans × List Session,
      cands.foldl (seatJointStep ov []) st =
        (st.fst, st.snd ++ cands.map (fun cand => cand.sessionInstance)) := by
  induction cands with
  | nil => intro st; simp
  | cons cand rest ih =>
      intro st
      have hstep : seatJointStep ov [] st cand = (st.fst, st.snd ++ [cand.sessionInstance]) := by
        unfold seatJointStep fitsAllOrd addToAllOrd
        simp
      simp only [List.foldl, hstep, ih, List.map_cons]
      simp

/-- Individual seating over an empty plan map stays empty. -/
theorem seatIndividual_nil_plans (ov : Session → Session → Bool)
    (cands : List IndividualCandidate) : seatIndividual ov [] cands = [] := by
  unfold seatIndividual
  induction cands with
  | nil => rfl
  | cons cand rest ih =>
      have hstep : seatIndividualStep ov [] cand = [] := by
        unfold seatIndividualStep
        by_cases h : (lookupPlan [] cand.childName).sessionFits ov cand.sessionInstance <;>
          simp [h, updatePlan]
      simp only [List.foldl, hstep]
      exact ih

/-- C7: for every availability string, the session is open for
enrolment iff the trimmed, lowercased string is `""`, `"available"` or
`"starting soon"`, or contains both `"space"` and `"left"`; the S4
instances `"3 spaces left"` and `"Starting Soon"` are open while
`"Full"` and `"Waitlist"` are closed. -/
theorem claim7_availability_open_set :
    (∀ s : String, availabilityIsOpen s = true ↔ specAvailabilityOpen s) ∧
    availabilityIsOpen "3 spaces left" = true ∧
    availabilityIsOpen "Starting Soon" = true ∧
    availabilityIsOpen "Full" = false ∧
    availabilityIsOpen "Waitlist" = false := by
  refine ⟨?_, by decide, by decide, by decide, by decide⟩
  intro s
  simp only [availabilityIsOpen, specAvailabilityOpen]
  by_cases h : (lowerTrim s == "".data || lowerTrim s == "available".data ||
      lowerTrim s == "starting soon".data) = true
  · rw [if_pos h]
    simp only [Bool.or_eq_true, beq_iff_eq] at h
    simp only [true_iff]
    tauto
  · rw [if_neg h]
    simp only [Bool.or_eq_true, beq_iff_eq] at h
    push_neg at h
    simp only [Bool.and_eq_true]
    tauto

/-- C6 (counterexample): the spec's age rule — absent maximum means
unbounded — accepts the age `2^31 - 1` with no bounds, but the code
rejects it because an absent maximum means `1<<31 - 1` there. -/
theorem claim6_counterexample :
    specAgeEligible (2 ^ 31 - 1) none none ∧
    ageIsWithinBounds (2 ^ 31 - 1) none none = false := by
  constructor
  · exact ⟨by norm_num, trivial⟩
  · decide

/-- C6 (amended): age passes iff `effectiveMin ≤ age < effectiveMax`,
where an absent minimum means 0 and an absent maximum means
`2^31 - 1`; a present upper bound is exclusive (a child aged exactly
`maxAge` is rejected), and the S3 instances hold. -/
theorem claim6_age_bounds :
    (∀ (age : Int) (minBound maxBound : Option Int),
        ageIsWithinBounds age minBound maxBound = true ↔
          minBound.getD 0 ≤ age ∧ age < maxBound.getD (2 ^ 31 - 1)) ∧
    (∀ (minBound : Option Int) (m : Int), ageIsWithinBounds m minBound (some m) = false) ∧
    ageIsWithinBounds 8 (some 6) (some 9) = true ∧
    ageIsWithinBounds 9 (some 6) (some 9) = false := by
  refine ⟨?_, ?_, by decide, by decide⟩
  · intro age mn mx
    simp [ageIsWithinBounds]
  · intro mn m
    simp [ageIsWithinBounds]

/-- C4: the spec (and the optimizer) treat an empty weekday set as
overlapping every weekday, but the batch scheduler's predicate
returns `false` on the very input the spec declares conflicting: the
two embodiments diverge on `sessionNoDays` vs `sessionWeekdays`
(identical overlapping dates, identical clock windows). -/
theorem claim4_weekday_empty_divergence :
    sessionNoDays.daysOfWeek = [] ∧
    ¬(sessionNoDays.endDateUnix < sessionWeekdays.startDateUnix ∨
      sessionWeekdays.endDateUnix < sessionNoDays.startDateUnix) ∧
    CmdSchedule.sessionsOverlap sessionNoDays sessionWeekdays = false ∧
    Optimizer.sessionsOverlap sessionNoDays sessionWeekdays = true ∧
    specConflict sessionNoDays sessionWeekdays = true := by decide

/-- C5 (counterexample): a session whose clock window is all-zero is
claimed to conflict with every date- and weekday-overlapping session,
yet both implemented predicates return `false` against a morning
session — neither has the zero-window special case. -/
theorem claim5_counterexample :
    ¬(sessionZeroClock.endDateUnix < sessionMorning.startDateUnix ∨
      sessionMorning.endDateUnix < sessionZeroClock.startDateUnix) ∧
    daysIntersect sessionZeroClock.daysOfWeek sessionMorning.daysOfWeek = true ∧
    sessionZeroClock.startClockMinutes = 0 ∧
    sessionZeroClock.endClockMinutes = 0 ∧
    CmdSchedule.sessionsOverlap sessionZeroClock sessionMorning = false ∧
    Optimizer.sessionsOverlap sessionZeroClock sessionMorning = false := by decide

/-- C5 (amended): for date-overlapping sessions with intersecting
weekday lists, both implemented predicates decide conflict by the
literal 120-minute buffer test on the stored clock minutes; an
unspecified `(0,0)` window receives no special treatment. -/
theorem claim5_clock_window_literal (a b : Session)
    (hdate : ¬(a.endDateUnix < b.startDateUnix ∨ b.endDateUnix < a.startDateUnix))
    (hdays : daysIntersect a.daysOfWeek b.daysOfWeek = true) :
    (CmdSchedule.sessionsOverlap a b = true ↔
      ¬(a.endClockMinutes + bufferMinutesBetweenSessions ≤ b.startClockMinutes ∨
        b.endClockMinutes + bufferMinutesBetweenSessions ≤ a.startClockMinutes)) ∧
    (Optimizer.sessionsOverlap a b = true ↔
      ¬(a.endClockMinutes + bufferMinutesBetweenSessions ≤ b.startClockMinutes ∨
        b.endClockMinutes + bufferMinutesBetweenSessions ≤ a.startClockMinutes)) := by
  constructor
  · unfold CmdSchedule.sessionsOverlap
    rw [if_neg hdate]
    simp only [hdays, Bool.not_true, Bool.false_eq_true, if_false]
    by_cases hc : (a.endClockMinutes + bufferMinutesBetweenSessions ≤ b.startClockMinutes ∨
        b.endClockMinutes + bufferMinutesBetweenSessions ≤ a.startClockMinutes) <;>
      simp [hc]
  · unfold Optimizer.sessionsOverlap
    rw [if_neg hdate]
    simp only [hdays, Bool.or_true, Bool.not_true, Bool.false_eq_true, if_false]
    by_cases hc : (a.endClockMinutes + bufferMinutesBetweenSessions ≤ b.startClockMinutes ∨
        b.endClockMinutes + bufferMinutesBetweenSessions ≤ a.startClockMinutes) <;>
      simp [hc]

/-- C5 (witness): the amended clock rule applied to two concrete
morning sessions. -/
theorem claim5_witness :
    ¬(sessionMorning.endDateUnix < sessionMorning.startDateUnix ∨
      sessionMorning.endDateUnix < sessionMorning.startDateUnix) ∧
    daysIntersect sessionMorning.daysOfWeek sessionMorning.daysOfWeek = true ∧
    (CmdSchedule.sessionsOverlap sessionMorning sessionMorning = true ↔
      ¬(sessionMorning.endClockMinutes + bufferMinutesBetweenSessions ≤
          sessionMorning.startClockMinutes ∨
        sessionMorning.endClockMinutes + bufferMinutesBetweenSessions ≤
          sessionMorning.startClockMinutes)) :=
  ⟨by decide, by decide,
    (claim5_clock_window_literal sessionMorning sessionMorning (by decide) (by decide)).1⟩

/-- C10 (counterexample): the two embodiments disagree on a pair with
identical dates and clock minutes once one weekday list is empty. -/
theorem claim10_counterexample :
    CmdSchedule.sessionsOverlap sessionNoDaysLate sessionTuesday = false ∧
    Optimizer.sessionsOverlap sessionNoDaysLate sessionTuesday = true := by decide

/-- An empty weekday list on either side makes the shared-day double
loop of the batch scheduler find no match. -/
theorem daysIntersect_of_empty (daysA daysB : List String)
    (h : daysA = [] ∨ daysB = []) : daysIntersect daysA daysB = false := by
  rcases h with h | h
  · subst h; rfl
  · subst h
    simp [daysIntersect]

/-- C10 (amended): the two conflict predicates return the same boolean
on a pair of sessions if and only if the pair is not a divergence
point; they diverge exactly on pairs whose date ranges overlap, whose
weekday lists have an empty side, and whose clock windows are within
the 120-minute buffer — there the batch scheduler says no conflict
while the optimizer says conflict.  In particular they agree whenever
both weekday lists are non-empty. -/
theorem claim10_predicates_agree (a b : Session) :
    CmdSchedule.sessionsOverlap a b = Optimizer.sessionsOverlap a b ↔
      ¬(¬(a.endDateUnix < b.startDateUnix ∨ b.endDateUnix < a.startDateUnix) ∧
        (a.daysOfWeek = [] ∨ b.daysOfWeek = []) ∧
        ¬(a.endClockMinutes + bufferMinutesBetweenSessions ≤ b.startClockMinutes ∨
          b.endClockMinutes + bufferMinutesBetweenSessions ≤ a.startClockMinutes)) := by
  unfold CmdSchedule.sessionsOverlap Optimizer.sessionsOverlap
  by_cases hd : a.endDateUnix < b.startDateUnix ∨ b.endDateUnix < a.startDateUnix
  · simp [hd]
  · rw [if_neg hd, if_neg hd]
    by_cases he : a.daysOfWeek = [] ∨ b.daysOfWeek = []
    · have hdi : daysIntersect a.daysOfWeek b.daysOfWeek = false :=
        daysIntersect_of_empty _ _ he
      have hsh : (a.daysOfWeek.isEmpty || b.daysOfWeek.isEmpty ||
          daysIntersect a.daysOfWeek b.daysOfWeek) = true := by
        rcases he with h | h <;> simp [h]
      simp only [hdi, hsh, Bool.not_false, Bool.not_true, if_true, Bool.false_eq_true,
        if_false]
      by_cases hc : a.endClockMinutes + bufferMinutesBetweenSessions ≤ b.startClockMinutes ∨
          b.endClockMinutes + bufferMinutesBetweenSessions ≤ a.startClockMinutes
      · simp [hc, hd, he]
      · simp [hc, hd]
    · have ha : a.daysOfWeek ≠ [] := fun h => he (Or.inl h)
      have hb : b.daysOfWeek ≠ [] := fun h => he (Or.inr h)
      have ha2 : a.daysOfWeek.isEmpty = false := by
        cases h : a.daysOfWeek with
        | nil => exact absurd h ha
        | cons x xs => rfl
      have hb2 : b.daysOfWeek.isEmpty = false := by
        cases h : b.daysOfWeek with
        | nil => exact absurd h hb
        | cons x xs => rfl
      simp [ha2, hb2, he]

/-- C8 (counterexample): two joint candidates tying on score and start
date, listed in ingest order 0 then 1, may legally come back from
`sort.Slice` in the reversed order — the comparator consults neither
id nor child, and `sort.Slice` does not promise stability — so the
processing order is not the claimed `(−score, startDate, id)` total
order. -/
theorem claim8_counterexample :
    jointCandTie0.totalScore = jointCandTie1.totalScore ∧
    jointCandTie0.sessionInstance.startDateUnix =
      jointCandTie1.sessionInstance.startDateUnix ∧
    validSortResult jointLess [jointCandTie0, jointCandTie1]
      [jointCandTie1, jointCandTie0] ∧
    [jointCandTie1, jointCandTie0] ≠ [jointCandTie0, jointCandTie1] := by
  refine ⟨by decide, by decide, ⟨by decide, ?_⟩, by decide⟩
  refine List.Pairwise.cons ?_ (List.pairwise_singleton _ _)
  intro y hy
  have hy2 : y = jointCandTie0 := by simpa using hy
  subst hy2
  decide

/-- C8 (amended): every list `sort.Slice` may legally hand to either
seating walk is ordered by `(−score, startDate)` — higher score first
and, within equal scores, no later start before an earlier one; ties
on both are broken in an unspecified way. -/
theorem claim8_processing_order :
    (∀ pool result : List ScoredSession,
        validSortResult jointLess pool result → result.Pairwise jointRankOrder) ∧
    (∀ pool result : List IndividualCandidate,
        validSortResult individualLess pool result →
          result.Pairwise individualRankOrder) := by
  constructor
  · intro pool result h
    refine h.2.imp ?_
    intro x y hxy
    unfold jointLess at hxy
    unfold jointRankOrder
    by_cases hs : y.totalScore = x.totalScore
    · rw [if_neg (not_not_intro hs)] at hxy
      have hlt := of_decide_eq_false hxy
      exact Or.inr ⟨hs.symm, not_lt.mp hlt⟩
    · rw [if_pos hs] at hxy
      have hle := not_lt.mp (of_decide_eq_false hxy)
      exact Or.inl (lt_of_le_of_ne hle hs)
  · intro pool result h
    refine h.2.imp ?_
    intro x y hxy
    unfold individualLess at hxy
    unfold individualRankOrder
    by_cases hs : y.priorityScore = x.priorityScore
    · rw [if_neg (not_not_intro hs)] at hxy
      have hlt := of_decide_eq_false hxy
      exact Or.inr ⟨hs.symm, not_lt.mp hlt⟩
    · rw [if_pos hs] at hxy
      have hle := not_lt.mp (of_decide_eq_false hxy)
      exact Or.inl (lt_of_le_of_ne hle hs)

/-- C8 (witness): the amended order applied to the concrete tying
pair in reversed order. -/
theorem claim8_witness :
    validSortResult jointLess [jointCandTie0, jointCandTie1]
      [jointCandTie1, jointCandTie0] ∧
    List.Pairwise jointRankOrder [jointCandTie1, jointCandTie0] := by
  have hv : validSortResult jointLess [jointCandTie0, jointCandTie1]
      [jointCandTie1, jointCandTie0] := by
    refine ⟨by decide, ?_⟩
    refine List.Pairwise.cons ?_ (List.pairwise_singleton _ _)
    intro y hy
    have hy2 : y = jointCandTie0 := by simpa using hy
    subst hy2
    decide
  exact ⟨hv, claim8_processing_order.1 _ _ hv⟩

/-- Every joint session chosen by the pipeline is in the plan of every
child of the sheet (generic in the overlap predicate). -/
theorem buildPlans_joint_mem (ov : Session → Session → Bool) (allSessions : List Session)
    (want : WantFileData) (s : Session) (c : String) (hc : c ∈ want.childNamesSorted)
    (hs : s ∈ (buildPlansWithVisitOrder ov want.childNamesSorted allSessions want).snd) :
    s ∈ (lookupPlan
      (buildPlansWithVisitOrder ov want.childNamesSorted allSessions want).fst
        c).scheduledSessions := by
  unfold buildPlansWithVisitOrder seatJoint at hs ⊢
  dsimp only at hs ⊢
  have h1 := seatJoint_mem ov want.childNamesSorted
    (sortRanked jointLess (jointCandidates want allSessions))
    ((initPlans want, []) : Plans × List Session)
    (fun d hd => hasKey_initPlans want d hd)
    (fun x hx => absurd hx (by simp))
  exact mem_seatIndividual ov _ c s _ (h1.2 s hs c hc)

/-- C2: every session recorded in the joint list of a run is a member
of every sheet child's final plan, in both embodiments. -/
theorem claim2_joint_in_every_plan (allSessions : List Session) (want : WantFileData)
    (s : Session) (c : String) (hc : c ∈ want.childNamesSorted) :
    (s ∈ (CmdSchedule.buildOptimizedPlans allSessions want).snd →
      s ∈ (lookupPlan (CmdSchedule.buildOptimizedPlans allSessions want).fst
        c).scheduledSessions) ∧
    (s ∈ (Optimizer.buildOptimizedPlans allSessions want).snd →
      s ∈ (lookupPlan (Optimizer.buildOptimizedPlans allSessions want).fst
        c).scheduledSessions) :=
  ⟨fun hs => buildPlans_joint_mem CmdSchedule.sessionsOverlap allSessions want s c hc hs,
    fun hs => buildPlans_joint_mem Optimizer.sessionsOverlap allSessions want s c hc hs⟩

/-- C2 (witness): the containment on a concrete one-child run whose
joint list holds `sessionMorning`. -/
theorem claim2_witness :
    "Kid" ∈ want1.childNamesSorted ∧
    sessionMorning ∈ (lookupPlan (Optimizer.buildOptimizedPlans [sessionMorning] want1).fst
      "Kid").scheduledSessions :=
  ⟨by decide,
    (claim2_joint_in_every_plan [sessionMorning] want1 sessionMorning "Kid"
      (by decide)).2 (by decide)⟩

/-- C1 (counterexample): an optimizer run seats `sessionMorning` and
`sessionZeroClock` into the same child's plan although the spec's
§4.3 predicate (zero clock window forces conflict) declares the pair
conflicting — the final plan is not conflict-free under the spec's
predicate. -/
theorem claim1_counterexample :
    (lookupPlan (Optimizer.buildOptimizedPlans [sessionZeroClock, sessionMorning]
      want1).fst "Kid").scheduledSessions = [sessionMorning, sessionZeroClock] ∧
    sessionMorning ≠ sessionZeroClock ∧
    specConflict sessionMorning sessionZeroClock = true ∧
    specConflict sessionZeroClock sessionMorning = true := by decide

/-- C1 (amended): in every run of either embodiment, each child's
final plan is pairwise conflict-free under the conflict predicate that
embodiment actually implements (no zero-clock special case), provided
the sheet's child names are duplicate-free. -/
theorem claim1_no_self_conflict (allSessions : List Session) (want : WantFileData)
    (hnd : want.childNamesSorted.Nodup) (c : String) :
    ((lookupPlan (CmdSchedule.buildOptimizedPlans allSessions want).fst
        c).scheduledSessions).Pairwise
      (fun a b => CmdSchedule.sessionsOverlap a b = false) ∧
    ((lookupPlan (Optimizer.buildOptimizedPlans allSessions want).fst
        c).scheduledSessions).Pairwise
      (fun a b => Optimizer.sessionsOverlap a b = false) :=
  ⟨plansNoConflict_buildPlans CmdSchedule.sessionsOverlap allSessions want hnd c,
    plansNoConflict_buildPlans Optimizer.sessionsOverlap allSessions want hnd c⟩

/-- C1 (witness): the amended invariant on the concrete run of the
counterexample. -/
theorem claim1_witness :
    want1.childNamesSorted.Nodup ∧
    ((lookupPlan (CmdSchedule.buildOptimizedPlans [sessionZeroClock, sessionMorning]
        want1).fst "Kid").scheduledSessions).Pairwise
      (fun a b => CmdSchedule.sessionsOverlap a b = false) :=
  ⟨by decide,
    (claim1_no_self_conflict [sessionZeroClock, sessionMorning] want1 (by decide) "Kid").1⟩

/-- C9: the run result does not depend on the order in which the joint
phase visits the plan map — the only run-to-run varying ingredient
(Go randomises map iteration; the comparator sorts and everything else
are functions of the inputs) — so two runs on identical inputs yield
identical results; both embodiments are instances of the pipeline at
their key order. -/
theorem claim9_determinism (ov : Session → Session → Bool) (σ₁ σ₂ : List String)
    (allSessions : List Session) (want : WantFileData) (hp : σ₁.Perm σ₂) :
    buildPlansWithVisitOrder ov σ₁ allSessions want =
      buildPlansWithVisitOrder ov σ₂ allSessions want ∧
    CmdSchedule.buildOptimizedPlans allSessions want =
      buildPlansWithVisitOrder CmdSchedule.sessionsOverlap want.childNamesSorted
        allSessions want ∧
    Optimizer.buildOptimizedPlans allSessions want =
      buildPlansWithVisitOrder Optimizer.sessionsOverlap want.childNamesSorted
        allSessions want :=
  ⟨buildPlans_eq_of_perm ov hp allSessions want, rfl, rfl⟩

/-- C9 (witness): visiting the two children of `want2` in either order
produces the same result on a concrete run. -/
theorem claim9_witness :
    (["Ann", "Ben"] : List String).Perm ["Ben", "Ann"] ∧
    buildPlansWithVisitOrder Optimizer.sessionsOverlap ["Ann", "Ben"]
        [sessionShared] want2 =
      buildPlansWithVisitOrder Optimizer.sessionsOverlap ["Ben", "Ann"]
        [sessionShared] want2 :=
  ⟨by decide,
    (claim9_determinism Optimizer.sessionsOverlap ["Ann", "Ben"] ["Ben", "Ann"]
      [sessionShared] want2 (by decide)).1⟩

/-- An empty session list runs through the pipeline untouched: no
candidates, no joint sessions, the initial plan map unchanged. -/
theorem buildPlans_nil_sessions (ov : Session → Session → Bool) (want : WantFileData) :
    buildPlansWithVisitOrder ov want.childNamesSorted [] want = (initPlans want, []) := rfl

/-- With no children, the pipeline keeps no plans and seats every open
session as joint. -/
theorem buildPlans_no_children_eq (ov : Session → Session → Bool)
    (allSessions : List Session) :
    buildPlansWithVisitOrder ov emptyWantFileData.childNamesSorted allSessions
        emptyWantFileData =
      ([], (sortRanked jointLess (jointCandidates emptyWantFileData allSessions)).map
        (fun cand => cand.sessionInstance)) := by
  unfold buildPlansWithVisitOrder seatJoint
  rw [show emptyWantFileData.childNamesSorted = ([] : List String) from rfl,
    show initPlans emptyWantFileData = ([] : Plans) from rfl]
  dsimp only
  rw [seatJoint_nil_visitOrder ov _ _, seatIndividual_nil_plans ov _]
  simp

/-- With no children every open session is chosen as joint: the joint
list of such a run holds exactly the availability-open sessions. -/
theorem mem_joint_no_children (ov : Session → Session → Bool) (allSessions : List Session)
    (s : Session) :
    s ∈ (buildPlansWithVisitOrder ov emptyWantFileData.childNamesSorted allSessions
        emptyWantFileData).snd ↔
      s ∈ allSessions ∧ availabilityIsOpen s.availabilityText = true := by
  rw [buildPlans_no_children_eq]
  simp [jointCandidates, mem_sortRanked, emptyWantFileData, List.mem_filter]

/-- C3 (counterexample): a run on a non-empty session list with an
empty preference sheet does not produce an empty result — the open
session becomes a joint session. -/
theorem claim3_counterexample :
    (Optimizer.buildOptimizedPlans [sessionMorning] emptyWantFileData).snd ≠ [] := by decide

/-- C3 (amended): an empty session list yields an empty result in both
embodiments (no joint sessions, every per-child plan empty) and the
total pipeline raises no error; an empty preference sheet yields no
per-child plans, and its joint list consists exactly of the sessions
whose availability is open. -/
theorem claim3_empty_inputs :
    (∀ (want : WantFileData) (c : String),
        lookupPlan (CmdSchedule.buildOptimizedPlans [] want).fst c = emptyPlan ∧
        (CmdSchedule.buildOptimizedPlans [] want).snd = [] ∧
        lookupPlan (Optimizer.buildOptimizedPlans [] want).fst c = emptyPlan ∧
        (Optimizer.buildOptimizedPlans [] want).snd = []) ∧
    (∀ allSessions : List Session,
        (CmdSchedule.buildOptimizedPlans allSessions emptyWantFileData).fst = [] ∧
        (Optimizer.buildOptimizedPlans allSessions emptyWantFileData).fst = []) ∧
    (∀ (allSessions : List Session) (s : Session),
        (s ∈ (CmdSchedule.buildOptimizedPlans allSessions emptyWantFileData).snd ↔
          s ∈ allSessions ∧ availabilityIsOpen s.availabilityText = true) ∧
        (s ∈ (Optimizer.buildOptimizedPlans allSessions emptyWantFileData).snd ↔
          s ∈ allSessions ∧ availabilityIsOpen s.availabilityText = true)) := by
  refine ⟨?_, ?_, ?_⟩
  · intro want c
    refine ⟨?_, rfl, ?_, rfl⟩ <;>
      simpa [CmdSchedule.buildOptimizedPlans, Optimizer.buildOptimizedPlans,
        buildPlans_nil_sessions] using lookupPlan_initPlans want c
  · intro allSessions
    constructor <;>
      simp [CmdSchedule.buildOptimizedPlans, Optimizer.buildOptimizedPlans,
        buildPlans_no_children_eq]
  · intro allSessions s
    exact ⟨mem_joint_no_children CmdSchedule.sessionsOverlap allSessions s,
      mem_joint_no_children Optimizer.sessionsOverlap allSessions s⟩
